import Mathlib

/-!
Verification development for the sds-langchain repository.

The development shallowly embeds the two algorithmic parts of the repository:

* `html_to_text_converter.py` — HTML text extraction and normalization
  (`extract_text_from_html`, the marker-truncation step, and the CLI `main`);
* `v3.py` — the checkpointed batch pipeline (module-level loop over PDF files,
  two extraction stages with JSON checkpoints, CSV row and processed-log writes).

Python strings are modelled as `List Char` (for character-level text routines)
or Lean `String` (for the pipeline's opaque identifiers and blobs).  External
collaborators (the LLM agent, the PDF loader, and the `json` library's parser
for arbitrary strings) are oracle fields of an `Env` record; the JSON values the
pipeline itself stores and loads are modelled by the inductive `JVal`.
-/

namespace HtmlText

/-- Characters stripped by Python `str.strip()` with no argument:
the ASCII/Latin-1 whitespace and the Unicode line/paragraph separators.
(Python also strips a handful of exotic Unicode space characters such as
U+2000–U+200A; inputs containing those are outside this model.) -/
def isPySpace (c : Char) : Bool :=
  c = ' ' || c = '\t' || c = '\n' || c = '\x0d' || c = '\x0b' || c = '\x0c' ||
  c = '\x1c' || c = '\x1d' || c = '\x1e' || c = '\x85' || c = '\xa0' ||
  c = ' ' || c = ' '

/-- Characters on which Python `str.splitlines()` breaks lines. -/
def isLineBreak (c : Char) : Bool :=
  c = '\n' || c = '\x0d' || c = '\x0b' || c = '\x0c' ||
  c = '\x1c' || c = '\x1d' || c = '\x1e' || c = '\x85' ||
  c = ' ' || c = ' '

/-- Python `str.lstrip()`. -/
def lstrip (l : List Char) : List Char := l.dropWhile isPySpace

/-- Python `str.rstrip()`. -/
def rstrip (l : List Char) : List Char := (l.reverse.dropWhile isPySpace).reverse

/-- Python `str.strip()`. -/
def pyStrip (l : List Char) : List Char := rstrip (lstrip l)

/-- Python `str.strip()` on Lean strings. -/
def pyStripS (s : String) : String := String.mk (pyStrip s.data)

/-- Python `str.endswith`. -/
def endsWithPy (s suf : String) : Bool := suf.data.isSuffixOf s.data

/-- Python `str.startswith`. -/
def startsWithPy (s pre : String) : Bool := pre.data.isPrefixOf s.data

/-- `str.splitlines()` treats the two-character sequence CR LF as a single
line break; this pass rewrites each CR LF pair to LF so that the splitter
below can treat every break as a single character. -/
def normCRLF : List Char → List Char
  | [] => []
  | [c] => [c]
  | c :: c2 :: cs =>
    if c = '\x0d' && c2 = '\n' then '\n' :: normCRLF cs
    else c :: normCRLF (c2 :: cs)

/-- Worker for `splitlinesPy`: accumulates the current line (reversed) and
splits at line-break characters.  A break at the very end of the input does
not produce a trailing empty line, matching Python `str.splitlines()`. -/
def slGo (acc : List Char) : List Char → List (List Char)
  | [] => [acc.reverse]
  | c :: cs =>
    if isLineBreak c then
      if cs = [] then [acc.reverse] else acc.reverse :: slGo [] cs
    else slGo (c :: acc) cs

/-- Python `str.splitlines()` (CR LF handled via `normCRLF`);
`splitlinesPy "" = []` as in Python. -/
def splitlinesPy (s : List Char) : List (List Char) :=
  if s = [] then [] else slGo [] (normCRLF s)

/-- `'\n'.join(pieces)`. -/
def joinNl : List (List Char) → List Char
  | [] => []
  | [p] => p
  | p :: ps => p ++ '\n' :: joinNl ps

/-- Lines 50–51 of `html_to_text_converter.py`: the stripped, non-blank lines
of the extracted text. -/
def cleanPieces (text : List Char) : List (List Char) :=
  ((splitlinesPy text).map pyStrip).filter (fun l => l ≠ [])

/-- Lines 50–52 of `html_to_text_converter.py`: break the extracted text into
lines, strip each line, drop blank lines, and join with newlines. -/
def cleanLines (text : List Char) : List Char :=
  joinNl (cleanPieces text)

/-- The index of the first occurrence of `m` as a literal sublist of the text,
as computed by Python `str.index` / `str.find`. -/
def findSub (m : List Char) : List Char → Option Nat
  | [] => if m.isPrefixOf ([] : List Char) then some 0 else none
  | c :: t => if m.isPrefixOf (c :: t) then some 0 else (findSub m t).map (· + 1)

/-- Lines 56–67 of `html_to_text_converter.py`: find the first occurrence of
the marker; if found, return the text from that position to the end, otherwise
return the empty string. -/
def truncateFromMarker (text marker : List Char) : List Char :=
  match findSub marker text with
  | some i => text.drop i
  | none => []

/-- The content marker of `extract_text_from_html` (line 57). -/
def startMarker : List Char := ['1', '.']

/-- Worker for `tagSplit`: a single pass collecting the text runs between
markup tags; the `Bool` flag records whether the scanner is currently inside a
tag (between `<` and the next `>`). -/
def tagSplitGo : Bool → List Char → List Char → List (List Char)
  | _, cur, [] => [cur.reverse]
  | true, cur, c :: cs =>
    if c = '>' then tagSplitGo false cur cs else tagSplitGo true cur cs
  | false, cur, c :: cs =>
    if c = '<' then cur.reverse :: tagSplitGo true [] cs
    else tagSplitGo false (c :: cur) cs

/-- The text runs of a markup document, in order (tags removed). -/
def tagSplit (html : List Char) : List (List Char) := tagSplitGo false [] html

/-- `soup.get_text(separator='\n', strip=True)` (line 47 of
`html_to_text_converter.py`): every text run is stripped, whitespace-only runs
are dropped, and the remaining runs are joined by the separator.  This models
BeautifulSoup's behaviour on markup that contains none of the elements removed
at lines 43–44 (`script`, `style`, `head`, `title`, `meta`); the fetched search
pages the repository feeds through it are opaque, so the routine is also
analysed for arbitrary post-extraction text. -/
def soupGetText (html : List Char) : List Char :=
  joinNl (((tagSplit html).map pyStrip).filter (fun l => l ≠ []))

/-- `extract_text_from_html` (lines 27–67): parse the markup, flatten it to
cleaned line-oriented text, then truncate from the first occurrence of the
marker `"1."`, returning the empty string when the marker is absent. -/
def extract_text_from_html (html : List Char) : List Char :=
  truncateFromMarker (cleanLines (soupGetText html)) startMarker

/-- `extract_text_from_html` on Lean strings. -/
def extractS (html : String) : String := String.mk (extract_text_from_html html.data)

end HtmlText

namespace Pipeline

/-- A JSON value as the `v3.py` pipeline stores and loads them: either a JSON
string, or a flat JSON object whose field values are strings.  Every value the
pipeline itself writes has one of these two shapes (`json.dump` of a Python
string at lines 205–206 and 256–257); a checkpoint file whose content is not
valid JSON at all is represented by `Option JVal = none` in the store below. -/
inductive JVal where
  | jstr (s : String)
  | jobj (kvs : List (String × String))
  deriving DecidableEq

/-- The checkpoint directory (`./pdfs-json`), as a map from file name to file
content: `none` = file absent, `some none` = file present but not valid JSON
(so `json.load` raises), `some (some v)` = file present and parsing to `v`. -/
def Store : Type := String → Option (Option JVal)

/-- Writing a checkpoint file whose content parses to `v` (`json.dump`). -/
def Store.set (st : Store) (k : String) (v : JVal) : Store :=
  fun k' => if k' = k then some (some v) else st k'

/-- The observable actions of one batch run, in program order:
agent invocations (stage 1 at line 176, stage 2 at line 243), checkpoint file
writes (lines 205–206 and 256–257), the append to `processed_file.csv`
(lines 281–284) and the row append to `output.csv` (lines 307–318). -/
inductive Ev where
  | invoke1 (doc : String)
  | invoke2 (doc : String)
  | ckptWrite (key : String) (val : JVal)
  | logWrite (doc : String)
  | rowWrite (row : List String)
  deriving DecidableEq

/-- The external collaborators of the batch loop, as read-only oracles:

* `loadPDF` — `PyPDFLoader(...).load()` (lines 150–152); `none` means the
  loader raised, i.e. `isPDFValid = False`;
* `agent1` — the stage-1 `agent.invoke` (line 176), keyed by the document
  name (the stage-1 prompt is fixed and the agent reads the document through
  its tool); `Except.error e` means the call raised exception `e`;
* `agent2` — the stage-2 `agent.invoke` (line 243), keyed by the sanitized
  product-information string embedded in its prompt;
* `jparse` — `json.loads` applied to an arbitrary string, returning the
  parsed flat object, or `none` when parsing raises or the parsed value does
  not behave as a dict of strings (both cases flow into the same `except`
  branches of the source). -/
structure Env where
  loadPDF : String → Option String
  agent1 : String → Except String String
  agent2 : String → Except String String
  jparse : String → Option (List (String × String))

/-- JSON string escaping as performed by `json.dumps` for the characters that
actually occur in the pipeline's payloads (backslash, double quote, newline;
`ensure_ascii` escaping of non-ASCII characters is not modelled — it does not
affect any analysed behaviour because parsing back goes through the `jparse`
oracle). -/
def escChar (c : Char) : List Char :=
  if c = '\\' then ['\\', '\\']
  else if c = '"' then ['\\', '"']
  else if c = '\n' then ['\\', 'n'] else [c]

/-- `json.dumps` of a flat object of strings, with Python's default
separators. -/
def dumpsObj (kvs : List (String × String)) : String :=
  "\x7b" ++ String.intercalate ", "
    (kvs.map (fun kv =>
      "\"" ++ String.mk (kv.1.data.map escChar).flatten ++ "\": \"" ++
      String.mk (kv.2.data.map escChar).flatten ++ "\"")) ++ "\x7d"

/-- The default stage-1 output (lines 123–135 of `v3.py`): `json.dumps` of the
all-empty product-information object. -/
def default1Output : String :=
  dumpsObj [("product_code", ""), ("product_name", ""),
    ("manufacturer_supplier", ""), ("product_item_number", ""),
    ("ufi_code", ""), ("current_sds_version", ""), ("current_sds_date", ""),
    ("language_country", ""), ("intended_use", "")]

/-- The default stage-2 output (lines 138–144 of `v3.py`). -/
def default2Output : String :=
  dumpsObj [("latest_sds_url", ""), ("latest_sds_version", ""),
    ("latest_sds_date", "")]

/-- Lines 262–268 of `v3.py`: the in-memory error payload built when the
stage-2 invocation raises — newlines of the message are escaped, and the
message is embedded in the `latest_sds_url` field of a dumped object. -/
def errorPayload (e : String) : String :=
  dumpsObj [("latest_sds_url",
      "🚨🚨🚨 ERROR: " ++ String.mk (e.data.map
        (fun c => if c = '\n' then ['\\', 'n'] else [c])).flatten),
    ("latest_sds_version", ""), ("latest_sds_date", "")]

/-- Line 199 / 212 of `v3.py`: `product_info.replace('"', '\"')`.  In Python
the replacement string `'\"'` denotes a plain double quote, so the
"sanitization" replaces every double quote by itself. -/
def sanitizeQuotes (s : String) : String :=
  String.mk (s.data.map (fun c => if c = '"' then '"' else c))

/-- `os.path.splitext(name)[0]`: drop the extension at the last dot, except
that a dot with only dots before it (a leading-dot file name) does not start
an extension. -/
def splitextBase (name : String) : String :=
  match (name.data.enum.filter (fun p => p.2 = '.')).getLast? with
  | none => name
  | some (i, _) =>
    if (name.data.take i).any (fun c => c ≠ '.') then
      String.mk (name.data.take i)
    else name

/-- The stage-1 checkpoint file name for a document (line 170). -/
def key1 (name : String) : String := splitextBase name ++ "_1.json"

/-- The stage-2 checkpoint file name for a document (line 217). -/
def key2 (name : String) : String := splitextBase name ++ "_2.json"

/-- Stage 1 (lines 169–213 of `v3.py`): if the stage-1 checkpoint file does
not exist, invoke the agent (an exception here is uncaught and aborts the
run), strip the output, and persist it; otherwise `json.load` the file (an
exception here is uncaught) and use the loaded string (`.replace` on a
non-string loaded value raises, uncaught).  Returns the `product_info`
string. -/
def stage1 (env : Env) (st : Store) (name : String) :
    Except String (String × Store × List Ev) :=
  match st (key1 name) with
  | none =>
    match env.agent1 name with
    | .error e => .error ("stage-1 agent invocation raised: " ++ e)
    | .ok out =>
      let pi := HtmlText.pyStripS out
      .ok (pi, st.set (key1 name) (JVal.jstr pi),
        [Ev.invoke1 name, Ev.ckptWrite (key1 name) (JVal.jstr pi)])
  | some none => .error ("stage-1 checkpoint is not valid JSON: " ++ key1 name)
  | some (some (JVal.jstr s)) => .ok (s, st, [])
  | some (some (JVal.jobj _)) =>
    .error ("stage-1 checkpoint did not load as a string: " ++ key1 name)

/-- Lines 225–239 of `v3.py`: the validity check applied to the loaded
stage-2 checkpoint value.  The loaded value is subscripted with `"output"`
(raising on a string or on a missing key, both caught), the result is
brace-checked after stripping, and then parsed with `json.loads` (a raised
exception is caught). -/
def hasValidJson (env : Env) (v : JVal) : Bool :=
  match v with
  | .jstr _ => false
  | .jobj kvs =>
    match kvs.find? (fun kv => kv.1 = "output") with
    | none => false
    | some kv =>
      let t := HtmlText.pyStripS kv.2
      if HtmlText.startsWithPy t "\x7b" && HtmlText.endsWithPy t "\x7d" then
        (env.jparse kv.2).isSome
      else false

/-- Lines 242–269 of `v3.py`: invoke the stage-2 agent inside `try`; on
success persist the output string to the stage-2 checkpoint, on an exception
build the in-memory error payload (nothing is persisted in that case). -/
def stage2Invoke (env : Env) (st : Store) (name seed : String) :
    JVal × Store × List Ev :=
  match env.agent2 seed with
  | .ok out =>
    (JVal.jstr out, st.set (key2 name) (JVal.jstr out),
      [Ev.invoke2 name, Ev.ckptWrite (key2 name) (JVal.jstr out)])
  | .error e => (JVal.jstr (errorPayload e), st, [Ev.invoke2 name])

/-- Stage 2 (lines 215–276 of `v3.py`): if the stage-2 checkpoint file
exists, `json.load` it (an exception here is uncaught and aborts the run) and
validate; on a valid checkpoint re-read the file and use the loaded value as
`response2["output"]`, otherwise invoke the agent.  Returns the value bound
to `response2["output"]` after the stage. -/
def stage2 (env : Env) (st : Store) (name seed : String) :
    Except String (JVal × Store × List Ev) :=
  match st (key2 name) with
  | some none => .error ("stage-2 checkpoint is not valid JSON: " ++ key2 name)
  | some (some v) =>
    if hasValidJson env v then .ok (v, st, [])
    else .ok (stage2Invoke env st name seed)
  | none => .ok (stage2Invoke env st name seed)

/-- Python `dict.get(key, default)` on a parsed flat object. -/
def jget (kvs : List (String × String)) (k dflt : String) : String :=
  match kvs.find? (fun kv => kv.1 = k) with
  | some kv => kv.2
  | none => dflt

/-- Lines 289–320 of `v3.py`: row assembly. `json.loads(product_info)` and
`json.loads(response2["output"])` run inside a `try` whose `except` only
prints, so any failure (including `response2["output"]` being a dict, which
`json.loads` rejects) silently produces no row. -/
def rowFor (env : Env) (name pi : String) (r2 : JVal) : Option (List String) :=
  match env.jparse pi with
  | none => none
  | some p1 =>
    match r2 with
    | .jobj _ => none
    | .jstr s =>
      match env.jparse s with
      | none => none
      | some p2 =>
        some [name, jget p1 "product_name" "", jget p1 "manufacturer_supplier" "",
          jget p1 "current_sds_version" "N/A", jget p1 "current_sds_date" "N/A",
          jget p2 "latest_sds_url" "", jget p2 "latest_sds_version" "",
          jget p2 "latest_sds_date" ""]

/-- The row-append events of the row-assembly block (zero or one event). -/
def rowEvents (env : Env) (name pi : String) (r2 : JVal) : List Ev :=
  match rowFor env name pi r2 with
  | none => []
  | some r => [Ev.rowWrite r]

/-- The body of the batch loop for one `.pdf` file (lines 121–323 of
`v3.py`).  A failed document load keeps the default stage-1/stage-2 outputs,
skips both stages and the processed-log append, and still attempts the row.
A valid document runs stage 1, stage 2, appends the document to the
processed log, and then attempts the row.  `Except.error` models an uncaught
exception aborting the whole run. -/
def processDoc (env : Env) (st : Store) (name : String) :
    Except String (Store × List Ev) :=
  match env.loadPDF name with
  | none =>
    .ok (st, rowEvents env name (HtmlText.pyStripS default1Output)
      (JVal.jstr default2Output))
  | some _ =>
    match stage1 env st name with
    | .error e => .error e
    | .ok (pi, st1, e1) =>
      match stage2 env st1 name (sanitizeQuotes pi) with
      | .error e => .error e
      | .ok (r2, st2, e2) =>
        .ok (st2, e1 ++ e2 ++ [Ev.logWrite name] ++ rowEvents env name pi r2)

/-- The batch loop (line 119): iterate the enumerated names in order,
processing the ones ending in `".pdf"`, accumulating events; an uncaught
exception anywhere aborts the remainder of the run. -/
def runDocs (env : Env) (st : Store) : List String → Except String (Store × List Ev)
  | [] => .ok (st, [])
  | d :: ds =>
    match (if HtmlText.endsWithPy d ".pdf" then processDoc env st d else .ok (st, [])) with
    | .error e => .error e
    | .ok (st1, e1) =>
      match runDocs env st1 ds with
      | .error e => .error e
      | .ok (st2, e2) => .ok (st2, e1 ++ e2)

/-- Strict lexicographic (code-point) comparison of character lists, the
order Python uses to compare strings. -/
def strLtL : List Char → List Char → Bool
  | [], [] => false
  | [], _ :: _ => true
  | _ :: _, [] => false
  | a :: as, b :: bs =>
    if a < b then true else if b < a then false else strLtL as bs

/-- `strLe a b` decides `a ≤ b` in the lexicographic (code-point) order that
Python's `sorted` uses on strings. -/
def strLe (a b : String) : Bool := !(strLtL b.data a.data)

/-- Stable insertion into a sorted list. -/
def insertStr (d : String) : List String → List String
  | [] => [d]
  | x :: xs => if strLe d x then d :: x :: xs else x :: insertStr d xs

/-- `sorted(listing)`: stable lexicographic sort of the directory listing. -/
def sortStrings : List String → List String
  | [] => []
  | x :: xs => insertStr x (sortStrings xs)

/-- The whole batch pipeline: sort the directory listing (line 119) and run
the loop over it. -/
def runPipeline (env : Env) (st : Store) (listing : List String) :
    Except String (Store × List Ev) :=
  runDocs env st (sortStrings listing)

/-- The rows appended to `output.csv` by a run, in order. -/
def rowsOf (evs : List Ev) : List (List String) :=
  evs.filterMap (fun e => match e with | .rowWrite r => some r | _ => none)

/-- The result table after a run: the pre-existing table with the run's rows
appended (`output.csv` is opened in append mode at line 307). -/
def tableAfter (t : List (List String)) (evs : List Ev) : List (List String) :=
  t ++ rowsOf evs

/-- The number of stage-1 agent invocations in a run. -/
def invoke1Count (evs : List Ev) : Nat :=
  evs.countP (fun e => match e with | .invoke1 _ => true | _ => false)

/-- The number of stage-2 agent invocations in a run. -/
def invoke2Count (evs : List Ev) : Nat :=
  evs.countP (fun e => match e with | .invoke2 _ => true | _ => false)

/-- The total number of agent invocations in a run. -/
def agentInvokeCount (evs : List Ev) : Nat := invoke1Count evs + invoke2Count evs

/-- The number of processed-log appends in a run. -/
def logCount (evs : List Ev) : Nat :=
  evs.countP (fun e => match e with | .logWrite _ => true | _ => false)

/-- The number of row appends in a run. -/
def rowCount (evs : List Ev) : Nat :=
  evs.countP (fun e => match e with | .rowWrite _ => true | _ => false)

/-- Whether a run aborted with an uncaught exception. -/
def runFailed (x : Except String (Store × List Ev)) : Bool :=
  match x with | .error _ => true | .ok _ => false

/-- The events of a completed run (`none` when the run aborted). -/
def runEvs (env : Env) (st : Store) (docs : List String) : Option (List Ev) :=
  match runDocs env st docs with
  | .ok p => some p.2
  | .error _ => none

/-- The final content of one checkpoint file after a completed run. -/
def runStoreAt (env : Env) (st : Store) (docs : List String) (k : String) :
    Option (Option (Option JVal)) :=
  match runDocs env st docs with
  | .ok p => some (p.1 k)
  | .error _ => none

/-- Run the pipeline twice over the same listing, the second run starting
from the checkpoint store the first run left behind; returns the second run's
events. -/
def runTwiceEvs (env : Env) (st : Store) (listing : List String) : Option (List Ev) :=
  match runPipeline env st listing with
  | .error _ => none
  | .ok (st1, _) =>
    match runPipeline env st1 listing with
    | .error _ => none
    | .ok (_, evs2) => some evs2

/-- Both result tables of two consecutive runs over the same listing,
starting from an empty result table. -/
def runTwiceTables (env : Env) (st : Store) (listing : List String) :
    Option (List (List String) × List (List String)) :=
  match runPipeline env st listing with
  | .error _ => none
  | .ok (st1, evs1) =>
    match runPipeline env st1 listing with
    | .error _ => none
    | .ok (_, evs2) => some (rowsOf evs1, rowsOf evs1 ++ rowsOf evs2)

/-- `st'` extends `st`: every key is unchanged or holds a persisted JSON
string (the only shape the pipeline ever writes). -/
def StoreExt (st st' : Store) : Prop :=
  ∀ k, st' k = st k ∨ ∃ s, st' k = some (some (JVal.jstr s))

/-- Every checkpoint file is either absent or holds a JSON string — the
invariant maintained by the pipeline's own writes. -/
def StoreOK (st : Store) : Prop :=
  ∀ k, st k = none ∨ ∃ s, st k = some (some (JVal.jstr s))

end Pipeline

namespace Cli

/-- The `--url` branch of `main` in `html_to_text_converter.py`
(lines 139–152 and 170–178), for an invocation where `args.url` was given:
`fetched` is the result of `fetch_html_content` (`none` = request error).
The fetched text is processed only when it is truthy, i.e. non-empty; the
result is the printed JSON object `(source_type, source_value,
extracted_text)`, and `none` means the failure message is printed and no
JSON is produced. -/
def mainUrl (url : String) (fetched : Option String) :
    Option (String × String × String) :=
  match fetched with
  | none => none
  | some html =>
    if html = "" then none else some ("url", url, HtmlText.extractS html)

/-- The `--search-lite` branch of `main` (lines 154–168 and 170–178):
the printed JSON object is `(source_type, query, region, extracted_text)`. -/
def mainSearchLite (query region : String) (fetched : Option String) :
    Option (String × String × String × String) :=
  match fetched with
  | none => none
  | some html =>
    if html = "" then none
    else some ("duckduckgo_lite_search", query, region, HtmlText.extractS html)

end Cli

namespace Pipeline

/-- A concrete JSON-parsing oracle for the test instances: it recognizes the
two concrete agent outputs used below and rejects everything else. -/
def jparseC (s : String) : Option (List (String × String)) :=
  if s = "P1" then some [("product_name", "X"), ("manufacturer_supplier", "M")]
  else if s = "S2" then some [("latest_sds_url", "U")]
  else none

/-- A concrete environment where every external call succeeds. -/
def envC : Env :=
  { loadPDF := fun _ => some "pdftext", agent1 := fun _ => .ok "P1",
    agent2 := fun _ => .ok "S2", jparse := jparseC }

/-- `envC` with a failing stage-2 agent. -/
def envE2 : Env := { envC with agent2 := fun _ => .error "netfail" }

/-- `envC` with a failing stage-1 agent. -/
def envErr : Env := { envC with agent1 := fun _ => .error "agent down" }

/-- `envC` with a JSON parser that rejects every string (unparseable agent
output). -/
def envB : Env := { envC with jparse := fun _ => none }

/-- An environment whose document loader fails on `"a.pdf"` and whose stage-2
agent always fails. -/
def envW : Env :=
  { loadPDF := fun d => if d = "a.pdf" then none else some "pdftext",
    agent1 := fun _ => .ok "P1", agent2 := fun _ => .error "boom",
    jparse := jparseC }

/-- The empty checkpoint store. -/
def store0 : Store := fun _ => none

/-- A store holding a malformed (not-JSON) stage-1 checkpoint for
`"a.pdf"`. -/
def storeM : Store := fun k => if k = "a_1.json" then some none else none

/-- A store holding string-valued stage-1 and stage-2 checkpoints for
`"a.pdf"`. -/
def storeW : Store :=
  (store0.set (key1 "a.pdf") (JVal.jstr "P1")).set (key2 "a.pdf") (JVal.jstr "S2")

/-- A store holding only a stage-1 checkpoint for `"a.pdf"`. -/
def storeOne : Store := store0.set (key1 "a.pdf") (JVal.jstr "P1")

/-- The result row produced for `"a.pdf"` under `envC`. -/
def rowC : List String := ["a.pdf", "X", "M", "N/A", "N/A", "U", "", ""]

/-- The checkpoint store after the first `envC` run over `["a.pdf"]`. -/
def st1c : Store :=
  (store0.set (key1 "a.pdf") (JVal.jstr "P1")).set (key2 "a.pdf") (JVal.jstr "S2")

/-- The events of the first `envC` run over `["a.pdf"]`. -/
def evs1c : List Ev :=
  [Ev.invoke1 "a.pdf", Ev.ckptWrite (key1 "a.pdf") (JVal.jstr "P1"),
   Ev.invoke2 "a.pdf", Ev.ckptWrite (key2 "a.pdf") (JVal.jstr "S2"),
   Ev.logWrite "a.pdf", Ev.rowWrite rowC]

/-- The checkpoint store after the second `envC` run over `["a.pdf"]`. -/
def st2c : Store := st1c.set (key2 "a.pdf") (JVal.jstr "S2")

/-- The events of the second `envC` run over `["a.pdf"]`: the stage-1
checkpoint is reused, but stage 2 is re-invoked because the persisted
stage-2 checkpoint never passes the validity check. -/
def evs2c : List Ev :=
  [Ev.invoke2 "a.pdf", Ev.ckptWrite (key2 "a.pdf") (JVal.jstr "S2"),
   Ev.logWrite "a.pdf", Ev.rowWrite rowC]

end Pipeline

namespace HtmlText

theorem findSub_some (m : List Char) :
    ∀ (t : List Char) (i : Nat), findSub m t = some i →
      m <+: t.drop i ∧ ∀ j < i, ¬ m <+: t.drop j := by
  intro t
  induction t with
  | nil =>
    intro i h
    simp only [findSub] at h
    split at h
    · rename_i hp
      cases h
      exact ⟨List.isPrefixOf_iff_prefix.mp hp, by omega⟩
    · cases h
  | cons c t ih =>
    intro i h
    simp only [findSub] at h
    split at h
    · rename_i hp
      cases h
      exact ⟨List.isPrefixOf_iff_prefix.mp hp, by omega⟩
    · rename_i hp
      rcases Option.map_eq_some'.mp h with ⟨j, hj, rfl⟩
      rcases ih j hj with ⟨h1, h2⟩
      refine ⟨by simpa using h1, ?_⟩
      intro k hk
      cases k with
      | zero =>
        simpa using fun hcon => hp (List.isPrefixOf_iff_prefix.mpr hcon)
      | succ k =>
        simpa using h2 k (by omega)

theorem findSub_none (m : List Char) :
    ∀ t : List Char, findSub m t = none → ∀ i, ¬ m <+: t.drop i := by
  intro t
  induction t with
  | nil =>
    intro h i
    simp only [findSub] at h
    split at h
    · cases h
    · rename_i hp
      simpa using fun hcon => hp (List.isPrefixOf_iff_prefix.mpr hcon)
  | cons c t ih =>
    intro h i
    simp only [findSub] at h
    split at h
    · cases h
    · rename_i hp
      have ht : findSub m t = none := by
        cases hf : findSub m t with
        | none => rfl
        | some j => rw [hf] at h; cases h
      cases i with
      | zero => simpa using fun hcon => hp (List.isPrefixOf_iff_prefix.mpr hcon)
      | succ i => simpa using ih ht i

theorem findSub_of_prefix (m : List Char) :
    ∀ t : List Char, m <+: t → findSub m t = some 0 := by
  intro t h
  cases t with
  | nil => simp [findSub, List.isPrefixOf_iff_prefix.mpr h]
  | cons c t => simp [findSub, List.isPrefixOf_iff_prefix.mpr h]

theorem infix_iff_prefix_drop (m t : List Char) :
    m <:+: t ↔ ∃ i, m <+: t.drop i := by
  constructor
  · rintro ⟨s, r, rfl⟩
    refine ⟨s.length, ?_⟩
    rw [List.append_assoc, List.drop_left s (m ++ r)]
    exact ⟨r, rfl⟩
  · rintro ⟨i, r, hr⟩
    exact ⟨t.take i, r, by rw [List.append_assoc, hr, List.take_append_drop]⟩

end HtmlText

/-- C7: for every text and marker, `truncateFromMarker` returns the empty
string when the marker does not occur in the text as a literal substring, and
otherwise returns the suffix of the text starting at the marker's first
occurrence; truncating a non-empty result again with the same marker returns
it unchanged. -/
theorem claim_C7_truncateFromMarker (text marker : List Char) :
    (¬ marker <:+: text → HtmlText.truncateFromMarker text marker = []) ∧
    (marker <:+: text →
      ∃ i, (marker <+: text.drop i ∧ ∀ j < i, ¬ marker <+: text.drop j) ∧
        HtmlText.truncateFromMarker text marker = text.drop i) ∧
    (HtmlText.truncateFromMarker text marker ≠ [] →
      HtmlText.truncateFromMarker (HtmlText.truncateFromMarker text marker) marker =
        HtmlText.truncateFromMarker text marker) := by
  refine ⟨?_, ?_, ?_⟩
  · intro h
    unfold HtmlText.truncateFromMarker
    cases hf : HtmlText.findSub marker text with
    | none => rfl
    | some i =>
      exact absurd ((HtmlText.infix_iff_prefix_drop marker text).mpr
        ⟨i, (HtmlText.findSub_some marker text i hf).1⟩) h
  · intro h
    cases hf : HtmlText.findSub marker text with
    | none =>
      rcases (HtmlText.infix_iff_prefix_drop marker text).mp h with ⟨i, hi⟩
      exact absurd hi (HtmlText.findSub_none marker text hf i)
    | some i =>
      exact ⟨i, HtmlText.findSub_some marker text i hf,
        by unfold HtmlText.truncateFromMarker; rw [hf]⟩
  · intro h
    unfold HtmlText.truncateFromMarker at h ⊢
    cases hf : HtmlText.findSub marker text with
    | none => rw [hf] at h; exact absurd rfl h
    | some i =>
      simp only [hf] at h ⊢
      rw [HtmlText.findSub_of_prefix marker (text.drop i)
        (HtmlText.findSub_some marker text i hf).1]
      simp

/-- Witness for C7 at the spec's own example inputs: the marker `"1."` occurs
in `"A\nB\n1.\nC"` and truncation returns the suffix from its first
occurrence. -/
theorem claim_C7_truncateFromMarker_witness :
    (HtmlText.startMarker <:+: ("A\nB\n1.\nC".data)) ∧
    (∃ i, (HtmlText.startMarker <+: ("A\nB\n1.\nC".data).drop i ∧
        ∀ j < i, ¬ HtmlText.startMarker <+: ("A\nB\n1.\nC".data).drop j) ∧
      HtmlText.truncateFromMarker ("A\nB\n1.\nC".data) HtmlText.startMarker =
        ("A\nB\n1.\nC".data).drop i) ∧
    (¬ HtmlText.startMarker <:+: ("A\nB".data)) ∧
    HtmlText.truncateFromMarker ("A\nB".data) HtmlText.startMarker = [] :=
  ⟨by decide,
   (claim_C7_truncateFromMarker ("A\nB\n1.\nC".data) HtmlText.startMarker).2.1 (by decide),
   by decide,
   (claim_C7_truncateFromMarker ("A\nB".data) HtmlText.startMarker).1 (by decide)⟩

/-- C9 counterexample: running the spec's example input through the
repository's HTML-to-text routine (`extract_text_from_html`, which ends with
the marker truncation) yields the empty string, not `"Hello\nWorld"`, because
the marker `"1."` does not occur in the cleaned text. -/
theorem claim_C9_counterexample :
    HtmlText.extractS "<html><body>  Hello \n\n World  </body></html>" ≠ "Hello\nWorld" ∧
    HtmlText.extractS "<html><body>  Hello \n\n World  </body></html>" = "" :=
  ⟨by decide, by decide⟩

/-- C9 amended: the normalization portion of the routine (markup stripped,
lines cleaned — the value `cleaned_text` at line 52) yields `"Hello\nWorld"`
on the example input; the routine's final result is the empty string because
the content marker `"1."` is absent. -/
theorem claim_C9_normalization :
    String.mk (HtmlText.cleanLines
      (HtmlText.soupGetText "<html><body>  Hello \n\n World  </body></html>".data)) =
      "Hello\nWorld" ∧
    HtmlText.extractS "<html><body>  Hello \n\n World  </body></html>" = "" :=
  ⟨by decide, by decide⟩

namespace HtmlText

theorem extractS_eq_empty (html : String)
    (h : ¬ startMarker <:+: cleanLines (soupGetText html.data)) :
    extractS html = "" := by
  unfold extractS extract_text_from_html truncateFromMarker
  cases hf : findSub startMarker (cleanLines (soupGetText html.data)) with
  | none => rfl
  | some i =>
    exact absurd ((infix_iff_prefix_drop _ _).mpr
      ⟨i, (findSub_some _ _ i hf).1⟩) h

end HtmlText

/-- C10: in the standalone CLI tool, a fetch that returns non-empty page text
is treated as success even when the content marker `"1."` is absent from the
cleaned text — the JSON object is produced with `extracted_text` equal to the
empty string; conversely the failure message (no JSON) occurs exactly when the
fetch or search returned no content (a request error or empty text). -/
theorem claim_C10_cli_marker_absent (url query region : String) (fetched : Option String) :
    (Cli.mainUrl url fetched = none ↔ (fetched = none ∨ fetched = some "")) ∧
    (Cli.mainSearchLite query region fetched = none ↔
      (fetched = none ∨ fetched = some "")) ∧
    (∀ html, fetched = some html → html ≠ "" →
      ¬ HtmlText.startMarker <:+: HtmlText.cleanLines (HtmlText.soupGetText html.data) →
      Cli.mainUrl url fetched = some ("url", url, "") ∧
      Cli.mainSearchLite query region fetched =
        some ("duckduckgo_lite_search", query, region, "")) := by
  refine ⟨?_, ?_, ?_⟩
  · cases fetched with
    | none => simp [Cli.mainUrl]
    | some html =>
      by_cases hh : html = "" <;> simp [Cli.mainUrl, hh]
  · cases fetched with
    | none => simp [Cli.mainSearchLite]
    | some html =>
      by_cases hh : html = "" <;> simp [Cli.mainSearchLite, hh]
  · rintro html rfl hne hmk
    rw [show Cli.mainUrl url (some html) =
        (if html = "" then none else some ("url", url, HtmlText.extractS html)) from rfl,
      show Cli.mainSearchLite query region (some html) = (if html = "" then none else
        some ("duckduckgo_lite_search", query, region, HtmlText.extractS html)) from rfl,
      if_neg hne, if_neg hne, HtmlText.extractS_eq_empty html hmk]
    exact ⟨rfl, rfl⟩

/-- Witness for C10: a concrete successful fetch of marker-free markup
produces the JSON output with an empty `extracted_text`, and a concrete
empty fetch produces the failure outcome. -/
theorem claim_C10_cli_marker_absent_witness :
    (("<p>hi</p>" : String) ≠ "") ∧
    (¬ HtmlText.startMarker <:+:
      HtmlText.cleanLines (HtmlText.soupGetText "<p>hi</p>".data)) ∧
    (Cli.mainUrl "u" (some "<p>hi</p>") = some ("url", "u", "") ∧
      Cli.mainSearchLite "q" "wt-wt" (some "<p>hi</p>") =
        some ("duckduckgo_lite_search", "q", "wt-wt", "")) ∧
    (Cli.mainUrl "u" (some "") = none ↔
      ((some "" : Option String) = none ∨ (some "" : Option String) = some "")) :=
  ⟨by decide, by decide,
   (claim_C10_cli_marker_absent "u" "q" "wt-wt" (some "<p>hi</p>")).2.2
     "<p>hi</p>" rfl (by decide) (by decide),
   (claim_C10_cli_marker_absent "u" "q" "wt-wt" (some "")).1⟩

namespace HtmlText

theorem slGo_mem_breakFree :
    ∀ (s acc : List Char), (∀ c ∈ acc, isLineBreak c = false) →
      ∀ l ∈ slGo acc s, ∀ c ∈ l, isLineBreak c = false := by
  intro s
  induction s with
  | nil =>
    intro acc hacc l hl
    simp only [slGo, List.mem_singleton] at hl
    subst hl
    intro c hc
    exact hacc c (List.mem_reverse.mp hc)
  | cons a s ih =>
    intro acc hacc l hl
    simp only [slGo] at hl
    by_cases hb : isLineBreak a
    · rw [if_pos hb] at hl
      by_cases hs : s = []
      · rw [if_pos hs, List.mem_singleton] at hl
        subst hl
        intro c hc
        exact hacc c (List.mem_reverse.mp hc)
      · rw [if_neg hs, List.mem_cons] at hl
        rcases hl with rfl | hl
        · intro c hc
          exact hacc c (List.mem_reverse.mp hc)
        · exact ih [] (by simp) l hl
    · rw [if_neg hb] at hl
      refine ih (a :: acc) ?_ l hl
      intro c hc
      rcases List.mem_cons.mp hc with rfl | hc
      · simpa using hb
      · exact hacc c hc

theorem slGo_append :
    ∀ (p acc r : List Char), (∀ c ∈ p, isLineBreak c = false) →
      slGo acc (p ++ r) = slGo (p.reverse ++ acc) r := by
  intro p
  induction p with
  | nil => intro acc r _; simp
  | cons a p ih =>
    intro acc r hp
    have ha : isLineBreak a = false := hp a (by simp)
    simp only [List.cons_append, slGo, ha, Bool.false_eq_true, if_false,
      List.append_eq]
    rw [ih (a :: acc) r (fun c hc => hp c (by simp [hc]))]
    simp

theorem slGo_breakFree_eq (p acc : List Char)
    (hp : ∀ c ∈ p, isLineBreak c = false) :
    slGo acc p = [acc.reverse ++ p] := by
  have := slGo_append p acc [] hp
  simpa [slGo, List.reverse_append] using this

theorem normCRLF_eq_self :
    ∀ s : List Char, (∀ c ∈ s, c ≠ '\x0d') → normCRLF s = s := by
  intro s
  induction s using normCRLF.induct with
  | case1 => simp [normCRLF]
  | case2 c => simp [normCRLF]
  | case3 c c2 cs hcc ih =>
    intro h
    exact absurd (h c (by simp)) (by simpa using (Bool.and_eq_true_iff.mp hcc).1)
  | case4 c c2 cs hcc ih =>
    intro h
    have hf : (decide (c = '\x0d') && decide (c2 = '\n')) = false := by
      simpa using hcc
    simp only [normCRLF, hf, Bool.false_eq_true, if_false]
    rw [ih (fun d hd => h d (List.mem_cons_of_mem c hd))]

theorem joinNl_cons (p : List Char) (ps : List (List Char)) (h : ps ≠ []) :
    joinNl (p :: ps) = p ++ '\n' :: joinNl ps := by
  cases ps with
  | nil => exact absurd rfl h
  | cons q ps => rfl

theorem joinNl_ne_nil (p : List Char) (ps : List (List Char)) (hp : p ≠ []) :
    joinNl (p :: ps) ≠ [] := by
  cases ps with
  | nil => simpa [joinNl] using hp
  | cons q ps => simp [joinNl]

theorem mem_joinNl :
    ∀ (ps : List (List Char)) (c : Char), c ∈ joinNl ps →
      c = '\n' ∨ ∃ p ∈ ps, c ∈ p := by
  intro ps
  induction ps with
  | nil => intro c hc; simp [joinNl] at hc
  | cons p ps ih =>
    intro c hc
    cases ps with
    | nil =>
      right
      exact ⟨p, by simp, by simpa [joinNl] using hc⟩
    | cons q ps' =>
      rw [joinNl_cons p (q :: ps') (by simp)] at hc
      rcases List.mem_append.mp hc with hc | hc
      · exact Or.inr ⟨p, by simp, hc⟩
      · rcases List.mem_cons.mp hc with rfl | hc
        · exact Or.inl rfl
        · rcases ih c hc with h | ⟨r, hr, hcr⟩
          · exact Or.inl h
          · exact Or.inr ⟨r, by simp [hr], hcr⟩

theorem splitlinesPy_joinNl :
    ∀ ps : List (List Char),
      (∀ p ∈ ps, p ≠ [] ∧ ∀ c ∈ p, isLineBreak c = false) →
      splitlinesPy (joinNl ps) = ps := by
  have hgo : ∀ ps : List (List Char), ps ≠ [] →
      (∀ p ∈ ps, p ≠ [] ∧ ∀ c ∈ p, isLineBreak c = false) →
      slGo [] (joinNl ps) = ps := by
    intro ps
    induction ps with
    | nil => intro h; exact absurd rfl h
    | cons p ps ih =>
      intro _ hgood
      cases ps with
      | nil =>
        have := slGo_breakFree_eq p [] (hgood p (by simp)).2
        simpa [joinNl] using this
      | cons q ps' =>
        rw [joinNl_cons p (q :: ps') (by simp),
          slGo_append p [] ('\n' :: joinNl (q :: ps')) (hgood p (by simp)).2]
        have hne : joinNl (q :: ps') ≠ [] :=
          joinNl_ne_nil q ps' (hgood q (by simp)).1
        simp only [slGo, isLineBreak, if_pos, List.append_nil]
        rw [if_neg hne, ih (by simp)
          (fun r hr => hgood r (List.mem_cons_of_mem p hr))]
        simp
  intro ps hgood
  cases ps with
  | nil => simp [joinNl, splitlinesPy]
  | cons p ps' =>
    have hnodd : ∀ c ∈ joinNl (p :: ps'), c ≠ '\x0d' := by
      intro c hc
      rcases mem_joinNl (p :: ps') c hc with rfl | ⟨r, hr, hcr⟩
      · decide
      · intro hcon
        have hbf := (hgood r hr).2 c hcr
        rw [hcon] at hbf
        exact absurd hbf (by decide)
    have hne : joinNl (p :: ps') ≠ [] := joinNl_ne_nil p ps' (hgood p (by simp)).1
    unfold splitlinesPy
    rw [if_neg hne, normCRLF_eq_self _ hnodd]
    exact hgo (p :: ps') (by simp) hgood

theorem mem_pyStrip {c : Char} {l : List Char} (h : c ∈ pyStrip l) : c ∈ l := by
  unfold pyStrip rstrip lstrip at h
  have h1 := (List.dropWhile_sublist (l := (l.dropWhile isPySpace).reverse)
    (p := isPySpace)).subset (List.mem_reverse.mp h)
  exact (List.dropWhile_sublist (l := l) (p := isPySpace)).subset
    (List.mem_reverse.mp h1)

theorem head_dropWhile_not (p : Char → Bool) :
    ∀ (l : List Char) (c : Char), (l.dropWhile p).head? = some c → p c = false := by
  intro l
  induction l with
  | nil => intro c h; simp at h
  | cons a l ih =>
    intro c h
    rw [List.dropWhile_cons] at h
    split at h
    · exact ih c h
    · rename_i ha
      simp only [List.head?_cons, Option.some.injEq] at h
      subst h
      simpa using ha

theorem head?_append_left {l₁ : List Char} (l₂ : List Char) (hne : l₁ ≠ []) :
    (l₁ ++ l₂).head? = l₁.head? := by
  cases l₁ with
  | nil => exact absurd rfl hne
  | cons a t => rfl

theorem head_pyStrip (l : List Char) (c : Char) (h : (pyStrip l).head? = some c) :
    isPySpace c = false := by
  have hpre : pyStrip l <+: lstrip l := by
    unfold pyStrip rstrip
    have hs : (lstrip l).reverse.dropWhile isPySpace <:+ (lstrip l).reverse :=
      List.dropWhile_suffix isPySpace
    rcases hs with ⟨u, hu⟩
    exact ⟨u.reverse, by rw [← List.reverse_append, hu, List.reverse_reverse]⟩
  rcases hpre with ⟨r, hr⟩
  have hne : pyStrip l ≠ [] := by
    intro hcon
    rw [hcon] at h
    cases h
  have hh : (lstrip l).head? = some c := by
    rw [← hr, head?_append_left r hne]
    exact h
  exact head_dropWhile_not isPySpace l c hh

theorem getLast_pyStrip (l : List Char) (c : Char)
    (h : (pyStrip l).getLast? = some c) : isPySpace c = false := by
  unfold pyStrip rstrip at h
  rw [← List.head?_reverse, List.reverse_reverse] at h
  exact head_dropWhile_not isPySpace _ c h

theorem pyStrip_eq_self (q : List Char)
    (hh : ∀ c, q.head? = some c → isPySpace c = false)
    (hl : ∀ c, q.getLast? = some c → isPySpace c = false) :
    pyStrip q = q := by
  have hls : lstrip q = q := by
    unfold lstrip
    cases q with
    | nil => rfl
    | cons a t =>
      rw [List.dropWhile_cons, if_neg]
      simp [hh a rfl]
  have hrs : rstrip q = q := by
    unfold rstrip
    have : q.reverse.dropWhile isPySpace = q.reverse := by
      cases hq : q.reverse with
      | nil => simp
      | cons a t =>
        rw [List.dropWhile_cons, if_neg]
        have : q.getLast? = some a := by
          rw [← List.head?_reverse, hq]; rfl
        simp [hl a this]
    rw [this, List.reverse_reverse]
  unfold pyStrip
  rw [hls, hrs]

theorem pyStrip_good (x : List Char) :
    pyStrip (pyStrip x) = pyStrip x := by
  refine pyStrip_eq_self (pyStrip x) ?_ ?_
  · intro c hc; exact head_pyStrip x c hc
  · intro c hc; exact getLast_pyStrip x c hc

theorem cleanPieces_good (t : List Char) :
    ∀ p ∈ cleanPieces t,
      p ≠ [] ∧ (∀ c ∈ p, isLineBreak c = false) ∧ pyStrip p = p := by
  intro p hp
  unfold cleanPieces at hp
  rcases List.mem_filter.mp hp with ⟨hmap, hne⟩
  rcases List.mem_map.mp hmap with ⟨q, hq, rfl⟩
  have hne' : pyStrip q ≠ [] := by simpa using hne
  refine ⟨hne', ?_, pyStrip_good q⟩
  intro c hc
  have hcq : c ∈ q := mem_pyStrip hc
  unfold splitlinesPy at hq
  split at hq
  · simp at hq
  · exact slGo_mem_breakFree (normCRLF t) [] (by simp) q hq c hcq

theorem getLast?_of_suffix {q p : List Char} (h : q <:+ p) (hq : q ≠ []) :
    q.getLast? = p.getLast? := by
  rcases h with ⟨u, rfl⟩
  exact (List.getLast?_append_of_ne_nil u hq).symm

/-- Decomposition of a suffix of `joinNl ps` that starts with a
non-line-break character: it is `joinNl` of a non-empty suffix of one of the
pieces followed by a tail of the pieces. -/
theorem joinNl_drop_decomp :
    ∀ (ps : List (List Char)),
      (∀ p ∈ ps, p ≠ [] ∧ ∀ c ∈ p, isLineBreak c = false) →
      ∀ (i : Nat) (c0 : Char), ((joinNl ps).drop i).head? = some c0 → c0 ≠ '\n' →
      ∃ q ps₃, q ≠ [] ∧ q.head? = some c0 ∧ (∃ p₂ ∈ ps, q <:+ p₂) ∧
        (joinNl ps).drop i = joinNl (q :: ps₃) ∧ ∀ p ∈ ps₃, p ∈ ps := by
  intro ps
  induction ps with
  | nil =>
    intro _ i c0 hc0 _
    simp [joinNl] at hc0
  | cons p ps' ih =>
    intro hgood i c0 hc0 hnl
    cases ps' with
    | nil =>
      refine ⟨p.drop i, [], ?_, ?_, ⟨p, by simp, List.drop_suffix i p⟩, ?_, by simp⟩
      · intro hcon
        rw [show joinNl [p] = p from rfl, hcon] at hc0
        cases hc0
      · rw [show joinNl [p] = p from rfl] at hc0; exact hc0
      · rfl
    | cons q0 rest =>
      have hsplit : (joinNl (p :: q0 :: rest)).drop i =
          p.drop i ++ (('\n' :: joinNl (q0 :: rest)).drop (i - p.length)) := by
        rw [joinNl_cons p (q0 :: rest) (by simp), List.drop_append_eq_append_drop]
      by_cases hi : i < p.length
      · have hdne : p.drop i ≠ [] := by
          intro hcon
          have := congrArg List.length hcon
          simp [List.length_drop] at this
          omega
        have hsub : i - p.length = 0 := by omega
        have heq : (joinNl (p :: q0 :: rest)).drop i =
            p.drop i ++ '\n' :: joinNl (q0 :: rest) := by
          rw [hsplit, hsub, List.drop_zero]
        refine ⟨p.drop i, q0 :: rest, hdne, ?_,
          ⟨p, by simp, List.drop_suffix i p⟩, ?_,
          fun r hr => List.mem_cons_of_mem p hr⟩
        · rw [heq, head?_append_left _ hdne] at hc0
          exact hc0
        · rw [heq, joinNl_cons (p.drop i) (q0 :: rest) (by simp)]
      · have hdnil : p.drop i = [] := List.drop_eq_nil_of_le (by omega)
        have hc0' : (('\n' :: joinNl (q0 :: rest)).drop (i - p.length)).head? =
            some c0 := by
          rw [hsplit, hdnil, List.nil_append] at hc0
          exact hc0
        rcases hk : i - p.length with _ | k
        · rw [hk, List.drop_zero] at hc0'
          simp only [List.head?_cons, Option.some.injEq] at hc0'
          exact absurd hc0'.symm hnl
        · rw [hk, List.drop_succ_cons] at hc0'
          rcases ih (fun r hr => hgood r (List.mem_cons_of_mem p hr)) k c0 hc0' hnl
            with ⟨q, ps₃, hq1, hq2, ⟨p₂, hp₂, hsuf⟩, heq, hmem⟩
          refine ⟨q, ps₃, hq1, hq2, ⟨p₂, List.mem_cons_of_mem p hp₂, hsuf⟩, ?_,
            fun r hr => List.mem_cons_of_mem p (hmem r hr)⟩
          rw [hsplit, hdnil, List.nil_append, hk, List.drop_succ_cons]
          exact heq

end HtmlText

/-- C8: for every input text, the output of the normalization routine
(lines 47–52) has no empty lines and no line with leading or trailing
whitespace, and the same holds of the final returned string after the marker
truncation with `"1."` is applied.  (The theorem quantifies over the text
handed to the line-cleanup, which ranges over every possible markup
extraction result.) -/
theorem claim_C8_normalize_no_blank_lines (t : List Char) :
    (∀ l ∈ HtmlText.splitlinesPy (HtmlText.cleanLines t),
      l ≠ [] ∧ HtmlText.pyStrip l = l) ∧
    (∀ l ∈ HtmlText.splitlinesPy
        (HtmlText.truncateFromMarker (HtmlText.cleanLines t) HtmlText.startMarker),
      l ≠ [] ∧ HtmlText.pyStrip l = l) := by
  have hgood := HtmlText.cleanPieces_good t
  have hsplit : HtmlText.splitlinesPy (HtmlText.cleanLines t) = HtmlText.cleanPieces t :=
    HtmlText.splitlinesPy_joinNl (HtmlText.cleanPieces t)
      (fun p hp => ⟨(hgood p hp).1, (hgood p hp).2.1⟩)
  constructor
  · intro l hl
    rw [hsplit] at hl
    exact ⟨(hgood l hl).1, (hgood l hl).2.2⟩
  · intro l hl
    unfold HtmlText.truncateFromMarker at hl
    cases hf : HtmlText.findSub HtmlText.startMarker (HtmlText.cleanLines t) with
    | none =>
      rw [hf] at hl
      have hl' : l ∈ HtmlText.splitlinesPy ([] : List Char) := hl
      simp [HtmlText.splitlinesPy] at hl'
    | some i =>
      rw [hf] at hl
      replace hl : l ∈ HtmlText.splitlinesPy ((HtmlText.cleanLines t).drop i) := hl
      have hpref : HtmlText.startMarker <+: (HtmlText.cleanLines t).drop i :=
        (HtmlText.findSub_some _ _ i hf).1
      have hhead : ((HtmlText.cleanLines t).drop i).head? = some '1' := by
        rcases hpref with ⟨r, hr⟩
        rw [← hr]
        rfl
      have hcl : HtmlText.cleanLines t = HtmlText.joinNl (HtmlText.cleanPieces t) := rfl
      rw [hcl] at hl hhead
      rcases HtmlText.joinNl_drop_decomp (HtmlText.cleanPieces t)
          (fun p hp => ⟨(hgood p hp).1, (hgood p hp).2.1⟩) i '1' hhead (by decide)
        with ⟨q, ps₃, hq1, hq2, ⟨p₂, hp₂, hsuf⟩, heq, hmem⟩
      rw [heq] at hl
      have hqgood : ∀ p ∈ q :: ps₃,
          p ≠ [] ∧ ∀ c ∈ p, HtmlText.isLineBreak c = false := by
        intro p hp
        rcases List.mem_cons.mp hp with rfl | hp
        · refine ⟨hq1, ?_⟩
          intro c hc
          exact (hgood p₂ hp₂).2.1 c (hsuf.subset hc)
        · exact ⟨(hgood p (hmem p hp)).1, (hgood p (hmem p hp)).2.1⟩
      rw [HtmlText.splitlinesPy_joinNl (q :: ps₃) hqgood] at hl
      rcases List.mem_cons.mp hl with rfl | hl
      · refine ⟨hq1, HtmlText.pyStrip_eq_self l ?_ ?_⟩
        · intro c hc
          rw [hq2] at hc
          obtain rfl : ('1' : Char) = c := Option.some.inj hc
          decide
        · intro c hc
          have hlast : l.getLast? = p₂.getLast? := HtmlText.getLast?_of_suffix hsuf hq1
          rw [hlast] at hc
          have hc' : (HtmlText.pyStrip p₂).getLast? = some c := by
            rw [(hgood p₂ hp₂).2.2]
            exact hc
          exact HtmlText.getLast_pyStrip p₂ c hc'
      · have hlm := hmem l hl
        exact ⟨(hgood l hlm).1, (hgood l hlm).2.2⟩

/-- Witness for C8 on a concrete input with blank lines and padded lines:
`"a"` is a line of the normalized output, is non-empty, and is unchanged by
stripping. -/
theorem claim_C8_normalize_no_blank_lines_witness :
    ("a".data ∈ HtmlText.splitlinesPy (HtmlText.cleanLines " a \n\n b ".data)) ∧
    ("a".data ≠ [] ∧ HtmlText.pyStrip "a".data = "a".data) :=
  ⟨by decide,
   (claim_C8_normalize_no_blank_lines (" a \n\n b ".data)).1 "a".data (by decide)⟩

namespace Pipeline

theorem storeExt_refl (st : Store) : StoreExt st st := fun _ => Or.inl rfl

theorem storeExt_trans {a b c : Store} (h1 : StoreExt a b) (h2 : StoreExt b c) :
    StoreExt a c := by
  intro k
  rcases h2 k with h | h
  · rw [h]; exact h1 k
  · exact Or.inr h

theorem storeExt_set (st : Store) (k0 s : String) :
    StoreExt st (st.set k0 (JVal.jstr s)) := by
  intro k
  unfold Store.set
  by_cases hk : k = k0
  · exact Or.inr ⟨s, by simp [hk]⟩
  · exact Or.inl (by simp [hk])

theorem storeExt_jstr {a b : Store} (h : StoreExt a b) (k : String)
    (hk : ∃ s, a k = some (some (JVal.jstr s))) :
    ∃ s, b k = some (some (JVal.jstr s)) := by
  rcases h k with h' | h'
  · rw [h']; exact hk
  · exact h'

theorem storeOK_of_storeExt {a b : Store} (ha : StoreOK a) (h : StoreExt a b) :
    StoreOK b := by
  intro k
  rcases h k with h' | h'
  · rw [h']; exact ha k
  · exact Or.inr h'

theorem stage1_hit (env : Env) (st : Store) (name s : String)
    (h : st (key1 name) = some (some (JVal.jstr s))) :
    stage1 env st name = .ok (s, st, []) := by
  unfold stage1
  rw [h]

theorem stage2_jstr (env : Env) (st : Store) (name seed s : String)
    (h : st (key2 name) = some (some (JVal.jstr s))) :
    stage2 env st name seed = .ok (stage2Invoke env st name seed) := by
  unfold stage2
  rw [h]
  simp [hasValidJson]

theorem stage2_absent (env : Env) (st : Store) (name seed : String)
    (h : st (key2 name) = none) :
    stage2 env st name seed = .ok (stage2Invoke env st name seed) := by
  unfold stage2
  rw [h]

theorem stage2_malformed (env : Env) (st : Store) (name seed : String)
    (h : st (key2 name) = some none) :
    ∃ e, stage2 env st name seed = .error e := by
  unfold stage2
  rw [h]
  exact ⟨_, rfl⟩

theorem stage1_cases (env : Env) (st : Store) (name pi : String)
    (st1 : Store) (e1 : List Ev) (h : stage1 env st name = .ok (pi, st1, e1)) :
    (st1 = st ∧ e1 = [] ∧ st (key1 name) = some (some (JVal.jstr pi))) ∨
    (st1 = st.set (key1 name) (JVal.jstr pi) ∧
      e1 = [Ev.invoke1 name, Ev.ckptWrite (key1 name) (JVal.jstr pi)] ∧
      st (key1 name) = none) := by
  unfold stage1 at h
  split at h
  · rename_i hk
    split at h
    · cases h
    · rename_i out ha
      simp only [Except.ok.injEq, Prod.mk.injEq] at h
      obtain ⟨rfl, rfl, rfl⟩ := h
      exact Or.inr ⟨rfl, rfl, hk⟩
  · cases h
  · rename_i s hk
    simp only [Except.ok.injEq, Prod.mk.injEq] at h
    obtain ⟨rfl, rfl, rfl⟩ := h
    exact Or.inl ⟨rfl, rfl, hk⟩
  · cases h

theorem stage2Invoke_cases (env : Env) (st : Store) (name seed : String) :
    (∃ out, env.agent2 seed = .ok out ∧
      stage2Invoke env st name seed = (JVal.jstr out,
        st.set (key2 name) (JVal.jstr out),
        [Ev.invoke2 name, Ev.ckptWrite (key2 name) (JVal.jstr out)])) ∨
    (∃ e, env.agent2 seed = .error e ∧
      stage2Invoke env st name seed =
        (JVal.jstr (errorPayload e), st, [Ev.invoke2 name])) := by
  unfold stage2Invoke
  cases ha : env.agent2 seed with
  | ok out => exact Or.inl ⟨out, rfl, rfl⟩
  | error e => exact Or.inr ⟨e, rfl, rfl⟩

theorem stage2_cases (env : Env) (st : Store) (name seed : String)
    (r2 : JVal) (st2 : Store) (e2 : List Ev)
    (h : stage2 env st name seed = .ok (r2, st2, e2)) :
    (st2 = st ∧ e2 = []) ∨
    (∃ out, st2 = st.set (key2 name) (JVal.jstr out) ∧
      e2 = [Ev.invoke2 name, Ev.ckptWrite (key2 name) (JVal.jstr out)]) ∨
    (st2 = st ∧ e2 = [Ev.invoke2 name]) := by
  unfold stage2 at h
  have hmain : Except.ok (stage2Invoke env st name seed) =
      (Except.ok (r2, st2, e2) : Except String (JVal × Store × List Ev)) →
      (st2 = st ∧ e2 = []) ∨
      (∃ out, st2 = st.set (key2 name) (JVal.jstr out) ∧
        e2 = [Ev.invoke2 name, Ev.ckptWrite (key2 name) (JVal.jstr out)]) ∨
      (st2 = st ∧ e2 = [Ev.invoke2 name]) := by
    intro h'
    simp only [Except.ok.injEq] at h'
    rcases stage2Invoke_cases env st name seed with ⟨out, _, hv⟩ | ⟨e, _, hv⟩
    · rw [hv] at h'
      simp only [Prod.mk.injEq] at h'
      exact Or.inr (Or.inl ⟨out, h'.2.1.symm, h'.2.2.symm⟩)
    · rw [hv] at h'
      simp only [Prod.mk.injEq] at h'
      exact Or.inr (Or.inr ⟨h'.2.1.symm, h'.2.2.symm⟩)
  split at h
  · cases h
  · split at h
    · simp only [Except.ok.injEq, Prod.mk.injEq] at h
      exact Or.inl ⟨h.2.1.symm, h.2.2.symm⟩
    · exact hmain h
  · exact hmain h

theorem rowFor_head (env : Env) (name pi : String) (r2 : JVal) (r : List String)
    (h : rowFor env name pi r2 = some r) : r.head? = some name := by
  unfold rowFor at h
  split at h
  · cases h
  · split at h
    · cases h
    · split at h
      · cases h
      · simp only [Option.some.injEq] at h
        rw [← h]
        rfl

theorem rowEvents_cases (env : Env) (name pi : String) (r2 : JVal) :
    rowEvents env name pi r2 = [] ∨
    ∃ r, rowEvents env name pi r2 = [Ev.rowWrite r] ∧ r.head? = some name := by
  unfold rowEvents
  cases h : rowFor env name pi r2 with
  | none => exact Or.inl rfl
  | some r => exact Or.inr ⟨r, rfl, rowFor_head env name pi r2 r h⟩

theorem rowsOf_rowEvents (env : Env) (name pi : String) (r2 : JVal) :
    rowsOf (rowEvents env name pi r2) = (rowFor env name pi r2).toList := by
  unfold rowEvents
  cases h : rowFor env name pi r2 with
  | none => rfl
  | some r => rfl

end Pipeline

namespace Pipeline

theorem processDoc_cases (env : Env) (st : Store) (name : String)
    (st' : Store) (evs : List Ev) (h : processDoc env st name = .ok (st', evs)) :
    (env.loadPDF name = none ∧ st' = st ∧
      evs = rowEvents env name (HtmlText.pyStripS default1Output)
        (JVal.jstr default2Output)) ∨
    (∃ txt pi st1 e1 r2 st2 e2, env.loadPDF name = some txt ∧
      stage1 env st name = .ok (pi, st1, e1) ∧
      stage2 env st1 name (sanitizeQuotes pi) = .ok (r2, st2, e2) ∧
      st' = st2 ∧
      evs = e1 ++ e2 ++ [Ev.logWrite name] ++ rowEvents env name pi r2) := by
  unfold processDoc at h
  split at h
  · rename_i hL
    simp only [Except.ok.injEq, Prod.mk.injEq] at h
    exact Or.inl ⟨hL, h.1.symm, h.2.symm⟩
  · rename_i txt hL
    split at h
    · cases h
    · rename_i pi st1 e1 hs1
      split at h
      · cases h
      · rename_i r2 st2 e2 hs2
        simp only [Except.ok.injEq, Prod.mk.injEq] at h
        exact Or.inr ⟨txt, pi, st1, e1, r2, st2, e2, hL, hs1, hs2,
          h.1.symm, h.2.symm⟩

theorem processDoc_storeExt (env : Env) (st : Store) (name : String)
    (st' : Store) (evs : List Ev) (h : processDoc env st name = .ok (st', evs)) :
    StoreExt st st' := by
  rcases processDoc_cases env st name st' evs h with
    ⟨_, hst, _⟩ | ⟨txt, pi, st1, e1, r2, st2, e2, _, hs1, hs2, hst, _⟩
  · rw [hst]; exact storeExt_refl st
  · have h1 : StoreExt st st1 := by
      rcases stage1_cases env st name pi st1 e1 hs1 with ⟨h', _, _⟩ | ⟨h', _, _⟩
      · rw [h']; exact storeExt_refl st
      · rw [h']; exact storeExt_set st (key1 name) pi
    have h2 : StoreExt st1 st2 := by
      rcases stage2_cases env st1 name (sanitizeQuotes pi) r2 st2 e2 hs2 with
        ⟨h', _⟩ | ⟨out, h', _⟩ | ⟨h', _⟩
      · rw [h']; exact storeExt_refl st1
      · rw [h']; exact storeExt_set st1 (key2 name) out
      · rw [h']; exact storeExt_refl st1
    rw [hst]
    exact storeExt_trans h1 h2

theorem processDoc_key1 (env : Env) (st : Store) (name txt : String)
    (st' : Store) (evs : List Ev) (h : processDoc env st name = .ok (st', evs))
    (hL : env.loadPDF name = some txt) :
    ∃ s, st' (key1 name) = some (some (JVal.jstr s)) := by
  rcases processDoc_cases env st name st' evs h with
    ⟨hL', _, _⟩ | ⟨txt', pi, st1, e1, r2, st2, e2, _, hs1, hs2, hst, _⟩
  · rw [hL] at hL'; cases hL'
  · have hk1 : st1 (key1 name) = some (some (JVal.jstr pi)) := by
      rcases stage1_cases env st name pi st1 e1 hs1 with ⟨h', _, hk⟩ | ⟨h', _, _⟩
      · rw [h']; exact hk
      · rw [h']; simp [Store.set]
    have h2 : StoreExt st1 st2 := by
      rcases stage2_cases env st1 name (sanitizeQuotes pi) r2 st2 e2 hs2 with
        ⟨h', _⟩ | ⟨out, h', _⟩ | ⟨h', _⟩
      · rw [h']; exact storeExt_refl st1
      · rw [h']; exact storeExt_set st1 (key2 name) out
      · rw [h']; exact storeExt_refl st1
    rw [hst]
    exact storeExt_jstr h2 (key1 name) ⟨pi, hk1⟩

theorem invoke1Count_append (a b : List Ev) :
    invoke1Count (a ++ b) = invoke1Count a + invoke1Count b :=
  List.countP_append _ _ _

theorem rowsOf_append (a b : List Ev) : rowsOf (a ++ b) = rowsOf a ++ rowsOf b :=
  List.filterMap_append a b _

theorem rowsOf_rowEvents_toList (env : Env) (name pi : String) (r2 : JVal) :
    ∃ ro : Option (List String),
      rowsOf (rowEvents env name pi r2) = ro.toList ∧
      ∀ r, ro = some r → r.head? = some name := by
  rcases rowEvents_cases env name pi r2 with he | ⟨r, he, hr⟩
  · exact ⟨none, by rw [he]; rfl, by simp⟩
  · refine ⟨some r, by rw [he]; rfl, ?_⟩
    intro r' hr'
    obtain rfl : r = r' := Option.some.inj hr'
    exact hr

theorem invoke1Count_rowEvents (env : Env) (name pi : String) (r2 : JVal) :
    invoke1Count (rowEvents env name pi r2) = 0 := by
  rcases rowEvents_cases env name pi r2 with he | ⟨r, he, _⟩ <;> rw [he] <;> rfl

theorem processDoc_shape (env : Env) (st : Store) (name : String)
    (st' : Store) (evs : List Ev) (h : processDoc env st name = .ok (st', evs)) :
    ∃ pre tail, evs = pre ++ tail ∧ (∀ r, Ev.rowWrite r ∉ pre) ∧
      (∀ l, Ev.logWrite l ∉ tail) ∧
      (tail = [] ∨ ∃ r, tail = [Ev.rowWrite r] ∧ r.head? = some name) := by
  rcases processDoc_cases env st name st' evs h with
    ⟨_, _, hevs⟩ | ⟨txt, pi, st1, e1, r2, st2, e2, _, hs1, hs2, _, hevs⟩
  · refine ⟨[], evs, by simp, by simp, ?_, ?_⟩
    · rw [hevs]
      rcases rowEvents_cases env name (HtmlText.pyStripS default1Output)
          (JVal.jstr default2Output) with he | ⟨r, he, _⟩ <;> rw [he] <;> simp
    · rw [hevs]
      rcases rowEvents_cases env name (HtmlText.pyStripS default1Output)
          (JVal.jstr default2Output) with he | ⟨r, he, hr⟩
      · exact Or.inl he
      · exact Or.inr ⟨r, he, hr⟩
  · refine ⟨e1 ++ e2 ++ [Ev.logWrite name], rowEvents env name pi r2,
      by simp [hevs], ?_, ?_, ?_⟩
    · intro r hr
      rcases List.mem_append.mp hr with hr | hr
      · rcases List.mem_append.mp hr with hr | hr
        · rcases stage1_cases env st name pi st1 e1 hs1 with ⟨_, rfl, _⟩ | ⟨_, rfl, _⟩
          · simp at hr
          · simp at hr
        · rcases stage2_cases env st1 name (sanitizeQuotes pi) r2 st2 e2 hs2 with
            ⟨_, rfl⟩ | ⟨out, _, rfl⟩ | ⟨_, rfl⟩ <;> simp at hr
      · simp at hr
    · intro l hl
      rcases rowEvents_cases env name pi r2 with he | ⟨r, he, _⟩ <;>
        rw [he] at hl <;> simp at hl
    · rcases rowEvents_cases env name pi r2 with he | ⟨r, he, hr⟩
      · exact Or.inl he
      · exact Or.inr ⟨r, he, hr⟩

theorem processDoc_rows (env : Env) (st : Store) (name : String)
    (st' : Store) (evs : List Ev) (h : processDoc env st name = .ok (st', evs)) :
    ∃ ro : Option (List String), rowsOf evs = ro.toList ∧
      ∀ r, ro = some r → r.head? = some name := by
  rcases processDoc_shape env st name st' evs h with
    ⟨pre, tail, rfl, hpre, _, htail⟩
  have hpre0 : rowsOf pre = [] := by
    unfold rowsOf
    rw [List.filterMap_eq_nil_iff]
    intro e he
    cases e with
    | rowWrite r => exact absurd he (hpre r)
    | invoke1 d => rfl
    | invoke2 d => rfl
    | ckptWrite k v => rfl
    | logWrite d => rfl
  rcases htail with rfl | ⟨r, rfl, hr⟩
  · exact ⟨none, by rw [rowsOf_append, hpre0]; rfl, by simp⟩
  · refine ⟨some r, by rw [rowsOf_append, hpre0]; rfl, ?_⟩
    intro r' hr'
    obtain rfl : r = r' := Option.some.inj hr'
    exact hr

theorem processDoc_no_invoke1 (env : Env) (st : Store) (name : String)
    (st' : Store) (evs : List Ev) (h : processDoc env st name = .ok (st', evs))
    (hready : env.loadPDF name = none ∨
      ∃ s, st (key1 name) = some (some (JVal.jstr s))) :
    invoke1Count evs = 0 := by
  rcases processDoc_cases env st name st' evs h with
    ⟨_, _, hevs⟩ | ⟨txt, pi, st1, e1, r2, st2, e2, hL, hs1, hs2, _, hevs⟩
  · rw [hevs]
    exact invoke1Count_rowEvents env name _ _
  · rcases hready with hn | ⟨s, hk⟩
    · rw [hL] at hn; cases hn
    · have he1 : e1 = [] := by
        rcases stage1_cases env st name pi st1 e1 hs1 with ⟨_, he, _⟩ | ⟨_, _, hnone⟩
        · exact he
        · rw [hk] at hnone; cases hnone
      have he2 : invoke1Count e2 = 0 := by
        rcases stage2_cases env st1 name (sanitizeQuotes pi) r2 st2 e2 hs2 with
          ⟨_, rfl⟩ | ⟨out, _, rfl⟩ | ⟨_, rfl⟩ <;> rfl
      rw [hevs, he1, invoke1Count_append, invoke1Count_append,
        invoke1Count_append, he2, invoke1Count_rowEvents]
      rfl

end Pipeline

namespace Pipeline

theorem runDocs_cons_cases (env : Env) (st : Store) (d : String)
    (ds : List String) (st' : Store) (evs : List Ev)
    (h : runDocs env st (d :: ds) = .ok (st', evs)) :
    ∃ st1 e1 e2, evs = e1 ++ e2 ∧ runDocs env st1 ds = .ok (st', e2) ∧
      ((HtmlText.endsWithPy d ".pdf" = true ∧ processDoc env st d = .ok (st1, e1)) ∨
       (HtmlText.endsWithPy d ".pdf" = false ∧ st1 = st ∧ e1 = [])) := by
  unfold runDocs at h
  split at h
  · cases h
  · rename_i st1 e1 heq
    split at h
    · cases h
    · rename_i st2 e2 htail
      simp only [Except.ok.injEq, Prod.mk.injEq] at h
      refine ⟨st1, e1, e2, h.2.symm, by rw [← h.1]; exact htail, ?_⟩
      by_cases hc : HtmlText.endsWithPy d ".pdf" = true
      · rw [if_pos hc] at heq
        exact Or.inl ⟨hc, heq⟩
      · rw [if_neg hc] at heq
        simp only [Except.ok.injEq, Prod.mk.injEq] at heq
        exact Or.inr ⟨by simpa using hc, heq.1.symm, heq.2.symm⟩

theorem runDocs_storeExt (env : Env) :
    ∀ (docs : List String) (st st' : Store) (evs : List Ev),
      runDocs env st docs = .ok (st', evs) → StoreExt st st' := by
  intro docs
  induction docs with
  | nil =>
    intro st st' evs h
    simp only [runDocs, Except.ok.injEq, Prod.mk.injEq] at h
    rw [← h.1]
    exact storeExt_refl st
  | cons d ds ih =>
    intro st st' evs h
    rcases runDocs_cons_cases env st d ds st' evs h with
      ⟨st1, e1, e2, _, htail, ⟨_, hp⟩ | ⟨_, hst1, _⟩⟩
    · exact storeExt_trans (processDoc_storeExt env st d st1 e1 hp)
        (ih st1 st' e2 htail)
    · rw [hst1] at htail
      exact ih st st' e2 htail

theorem runDocs_key1_all (env : Env) :
    ∀ (docs : List String) (st st' : Store) (evs : List Ev),
      runDocs env st docs = .ok (st', evs) →
      ∀ d ∈ docs, HtmlText.endsWithPy d ".pdf" = true →
        ∀ txt, env.loadPDF d = some txt →
          ∃ s, st' (key1 d) = some (some (JVal.jstr s)) := by
  intro docs
  induction docs with
  | nil => intro st st' evs h d hd; simp at hd
  | cons d0 ds ih =>
    intro st st' evs h d hd hpdf txt hload
    rcases runDocs_cons_cases env st d0 ds st' evs h with
      ⟨st1, e1, e2, _, htail, hhead⟩
    rcases List.mem_cons.mp hd with rfl | hd
    · rcases hhead with ⟨_, hp⟩ | ⟨hno, _, _⟩
      · exact storeExt_jstr (runDocs_storeExt env ds st1 st' e2 htail) (key1 d)
          (processDoc_key1 env st d txt st1 e1 hp hload)
      · rw [hpdf] at hno; cases hno
    · exact ih st1 st' e2 htail d hd hpdf txt hload

theorem runDocs_no_invoke1 (env : Env) :
    ∀ (docs : List String) (st st' : Store) (evs : List Ev),
      (∀ d ∈ docs, HtmlText.endsWithPy d ".pdf" = true →
        ∀ txt, env.loadPDF d = some txt →
          ∃ s, st (key1 d) = some (some (JVal.jstr s))) →
      runDocs env st docs = .ok (st', evs) → invoke1Count evs = 0 := by
  intro docs
  induction docs with
  | nil =>
    intro st st' evs _ h
    simp only [runDocs, Except.ok.injEq, Prod.mk.injEq] at h
    rw [← h.2]
    rfl
  | cons d ds ih =>
    intro st st' evs hready h
    rcases runDocs_cons_cases env st d ds st' evs h with
      ⟨st1, e1, e2, hevs, htail, hhead⟩
    have hext : StoreExt st st1 := by
      rcases hhead with ⟨_, hp⟩ | ⟨_, hst1, _⟩
      · exact processDoc_storeExt env st d st1 e1 hp
      · rw [hst1]; exact storeExt_refl st
    have h1 : invoke1Count e1 = 0 := by
      rcases hhead with ⟨hc, hp⟩ | ⟨_, _, he1⟩
      · refine processDoc_no_invoke1 env st d st1 e1 hp ?_
        cases hload : env.loadPDF d with
        | none => exact Or.inl rfl
        | some txt =>
          exact Or.inr (hready d (by simp) hc txt hload)
      · rw [he1]; rfl
    have h2 : invoke1Count e2 = 0 := by
      refine ih st1 st' e2 ?_ htail
      intro d' hd' hpdf txt hload
      exact storeExt_jstr hext (key1 d')
        (hready d' (List.mem_cons_of_mem d hd') hpdf txt hload)
    rw [hevs, invoke1Count_append, h1, h2]

theorem runDocs_rows (env : Env) :
    ∀ (docs : List String) (st st' : Store) (evs : List Ev),
      runDocs env st docs = .ok (st', evs) →
      ∃ rowOf : List (Option (List String)),
        rowOf.length = docs.length ∧
        rowsOf evs = rowOf.reduceOption ∧
        ∀ i r, rowOf.get? i = some (some r) →
          ∃ d, docs.get? i = some d ∧ r.head? = some d := by
  intro docs
  induction docs with
  | nil =>
    intro st st' evs h
    simp only [runDocs, Except.ok.injEq, Prod.mk.injEq] at h
    refine ⟨[], rfl, ?_, ?_⟩
    · rw [← h.2]; rfl
    · intro i r hi; simp at hi
  | cons d ds ih =>
    intro st st' evs h
    rcases runDocs_cons_cases env st d ds st' evs h with
      ⟨st1, e1, e2, hevs, htail, hhead⟩
    rcases ih st1 st' e2 htail with ⟨rowOf', hlen, hrows, hget⟩
    have hro : ∃ ro : Option (List String), rowsOf e1 = ro.toList ∧
        ∀ r, ro = some r → r.head? = some d := by
      rcases hhead with ⟨_, hp⟩ | ⟨_, _, he1⟩
      · exact processDoc_rows env st d st1 e1 hp
      · exact ⟨none, by rw [he1]; rfl, by simp⟩
    rcases hro with ⟨ro, hro1, hro2⟩
    refine ⟨ro :: rowOf', by simpa using hlen, ?_, ?_⟩
    · rw [hevs, rowsOf_append, hro1, hrows]
      cases ro with
      | none => simp [List.reduceOption_cons_of_none]
      | some r => simp [List.reduceOption_cons_of_some]
    · intro i r hi
      cases i with
      | zero =>
        simp only [List.get?_cons_zero, Option.some.injEq] at hi
        exact ⟨d, rfl, hro2 r hi⟩
      | succ i =>
        simp only [List.get?_cons_succ] at hi
        rcases hget i r hi with ⟨d', hd', hr'⟩
        exact ⟨d', by simpa using hd', hr'⟩

theorem storeOK_store0like (st : Store) (h : ∀ k, st k = none) : StoreOK st :=
  fun k => Or.inl (h k)

theorem processDoc_total (env : Env) (st : Store) (name : String)
    (hOK : StoreOK st) (hA : ∃ o, env.agent1 name = .ok o) :
    ∃ st' evs, processDoc env st name = .ok (st', evs) ∧ StoreOK st' := by
  cases hL : env.loadPDF name with
  | none =>
    refine ⟨st, rowEvents env name (HtmlText.pyStripS default1Output)
      (JVal.jstr default2Output), ?_, hOK⟩
    unfold processDoc
    rw [hL]
  | some txt =>
    have h1 : ∃ pi st1 e1, stage1 env st name = .ok (pi, st1, e1) ∧ StoreOK st1 := by
      rcases hOK (key1 name) with hk | ⟨s, hk⟩
      · rcases hA with ⟨o, ho⟩
        refine ⟨HtmlText.pyStripS o,
          st.set (key1 name) (JVal.jstr (HtmlText.pyStripS o)),
          [Ev.invoke1 name, Ev.ckptWrite (key1 name)
            (JVal.jstr (HtmlText.pyStripS o))], ?_, ?_⟩
        · unfold stage1
          rw [hk, ho]
        · exact storeOK_of_storeExt hOK (storeExt_set st (key1 name) _)
      · exact ⟨s, st, [], stage1_hit env st name s hk, hOK⟩
    rcases h1 with ⟨pi, st1, e1, hs1, hOK1⟩
    have h2 : ∃ r2 st2 e2,
        stage2 env st1 name (sanitizeQuotes pi) = .ok (r2, st2, e2) ∧
        StoreOK st2 := by
      have hinv : ∃ r2 st2 e2,
          stage2Invoke env st1 name (sanitizeQuotes pi) = (r2, st2, e2) ∧
          StoreOK st2 := by
        rcases stage2Invoke_cases env st1 name (sanitizeQuotes pi) with
          ⟨out, _, hv⟩ | ⟨e, _, hv⟩
        · exact ⟨_, _, _, hv,
            storeOK_of_storeExt hOK1 (storeExt_set st1 (key2 name) out)⟩
        · exact ⟨_, _, _, hv, hOK1⟩
      rcases hinv with ⟨r2, st2, e2, hv, hOK2⟩
      rcases hOK1 (key2 name) with hk | ⟨s, hk⟩
      · exact ⟨r2, st2, e2, by rw [stage2_absent env st1 name _ hk, hv], hOK2⟩
      · exact ⟨r2, st2, e2, by rw [stage2_jstr env st1 name _ s hk, hv], hOK2⟩
    rcases h2 with ⟨r2, st2, e2, hs2, hOK2⟩
    refine ⟨st2, e1 ++ e2 ++ [Ev.logWrite name] ++ rowEvents env name pi r2,
      ?_, hOK2⟩
    unfold processDoc
    rw [hL]
    simp only [hs1, hs2]

theorem runDocs_cons_eq_ok (env : Env) (st : Store) (d : String)
    (ds : List String) (st1 : Store) (e1 : List Ev)
    (h : (if HtmlText.endsWithPy d ".pdf" = true then processDoc env st d
      else Except.ok (st, [])) = Except.ok (st1, e1))
    (st2 : Store) (e2 : List Ev) (h2 : runDocs env st1 ds = .ok (st2, e2)) :
    runDocs env st (d :: ds) = .ok (st2, e1 ++ e2) := by
  unfold runDocs
  rw [h]
  simp only [h2]

theorem runDocs_total (env : Env) :
    ∀ (docs : List String) (st : Store), StoreOK st →
      (∀ d, ∃ o, env.agent1 d = .ok o) →
      ∃ st' evs, runDocs env st docs = .ok (st', evs) ∧ StoreOK st' := by
  intro docs
  induction docs with
  | nil =>
    intro st hOK _
    exact ⟨st, [], rfl, hOK⟩
  | cons d ds ih =>
    intro st hOK hA
    by_cases hc : HtmlText.endsWithPy d ".pdf" = true
    · rcases processDoc_total env st d hOK (hA d) with ⟨st1, e1, hp, hOK1⟩
      rcases ih st1 hOK1 hA with ⟨st2, e2, hr, hOK2⟩
      exact ⟨st2, e1 ++ e2,
        runDocs_cons_eq_ok env st d ds st1 e1 (by rw [if_pos hc]; exact hp)
          st2 e2 hr, hOK2⟩
    · rcases ih st hOK hA with ⟨st2, e2, hr, hOK2⟩
      exact ⟨st2, [] ++ e2,
        runDocs_cons_eq_ok env st d ds st [] (by rw [if_neg hc]) st2 e2 hr, hOK2⟩

end Pipeline

open Pipeline in
/-- C1 counterexample: with every stage-1 and stage-2 checkpoint persisted by
the first run, the second run over the same single-document listing still
performs one agent invocation (the stage-2 re-invocation) and appends a
duplicate row, so the result table after the second run differs from the
table after the first. -/
theorem claim_C1_resumability_counterexample :
    (runTwiceEvs envC store0 ["a.pdf"]).map agentInvokeCount = some 1 ∧
    runTwiceTables envC store0 ["a.pdf"] = some ([rowC], [rowC, rowC]) ∧
    ([rowC] : List (List String)) ≠ [rowC, rowC] :=
  ⟨by decide, by decide, by decide⟩

open Pipeline in
/-- C1 (amended): a second run over the same listing performs zero stage-1
agent invocations (stage-1 checkpoints are reused), but the result table
after the second run is the first-run table with the second run's rows
appended — identical only if the second run writes no rows (which it does
whenever a document's row assembly succeeds, since stage 2 is re-invoked). -/
theorem claim_C1_resumability (env : Env) (st0 : Store) (listing : List String)
    (t0 : List (List String)) (st1 st2 : Store) (evs1 evs2 : List Ev)
    (h1 : runPipeline env st0 listing = .ok (st1, evs1))
    (h2 : runPipeline env st1 listing = .ok (st2, evs2)) :
    invoke1Count evs2 = 0 ∧
    (tableAfter (tableAfter t0 evs1) evs2 = tableAfter t0 evs1 ↔
      rowsOf evs2 = []) := by
  constructor
  · exact runDocs_no_invoke1 env (sortStrings listing) st1 st2 evs2
      (runDocs_key1_all env (sortStrings listing) st0 st1 evs1 h1) h2
  · unfold tableAfter
    constructor
    · intro h
      have hlen := congrArg List.length h
      simp only [List.length_append] at hlen
      have h0 : (rowsOf evs2).length = 0 := by omega
      exact List.eq_nil_of_length_eq_zero h0
    · intro h
      rw [h, List.append_nil]

open Pipeline in
/-- Witness for the amended C1 at the concrete two-run instance. -/
theorem claim_C1_resumability_witness :
    invoke1Count evs2c = 0 ∧
    (tableAfter (tableAfter [] evs1c) evs2c = tableAfter [] evs1c ↔
      rowsOf evs2c = []) :=
  claim_C1_resumability envC store0 ["a.pdf"] [] st1c st2c evs1c evs2c rfl rfl

open Pipeline in
/-- C2 counterexample: a persisted stage-1 checkpoint that fails to parse as
JSON is fatal — the batch run aborts instead of recomputing the stage. -/
theorem claim_C2_checkpoint_validation_counterexample :
    storeM (key1 "a.pdf") = some none ∧
    runFailed (runDocs envC storeM ["a.pdf"]) = true :=
  ⟨by decide, by decide⟩

open Pipeline in
/-- C2 (amended): a stage-2 checkpoint holding a JSON string — the only shape
the pipeline itself persists — fails the validity check and is treated as a
cache miss, non-fatally re-invoking the stage-2 agent; but a checkpoint file
that is not valid JSON at all aborts the run, and a stage-1 checkpoint is
reused with no field-set validation whatsoever. -/
theorem claim_C2_checkpoint_validation (env : Env) (st : Store)
    (d txt p : String) (hload : env.loadPDF d = some txt)
    (hk1 : st (key1 d) = some (some (JVal.jstr p))) :
    (∀ s, st (key2 d) = some (some (JVal.jstr s)) →
      ∃ st' evs, processDoc env st d = .ok (st', evs) ∧ Ev.invoke2 d ∈ evs) ∧
    (st (key2 d) = some none → ∃ e, processDoc env st d = .error e) := by
  have hs1 := stage1_hit env st d p hk1
  constructor
  · intro s hk2
    have hs2 := stage2_jstr env st d (sanitizeQuotes p) s hk2
    rcases stage2Invoke_cases env st d (sanitizeQuotes p) with
      ⟨out, _, hv⟩ | ⟨e, _, hv⟩
    · refine ⟨st.set (key2 d) (JVal.jstr out),
        (([] ++ [Ev.invoke2 d, Ev.ckptWrite (key2 d) (JVal.jstr out)]) ++
          [Ev.logWrite d]) ++ rowEvents env d p (JVal.jstr out), ?_, by simp⟩
      unfold processDoc
      rw [hload]
      simp only [hs1, hs2, hv]
    · refine ⟨st, (([] ++ [Ev.invoke2 d]) ++ [Ev.logWrite d]) ++
        rowEvents env d p (JVal.jstr (errorPayload e)), ?_, by simp⟩
      unfold processDoc
      rw [hload]
      simp only [hs1, hs2, hv]
  · intro hk2
    rcases stage2_malformed env st d (sanitizeQuotes p) hk2 with ⟨e, hs2⟩
    refine ⟨e, ?_⟩
    unfold processDoc
    rw [hload]
    simp only [hs1, hs2]

open Pipeline in
/-- Witness for the amended C2 at a concrete store with a string-valued
stage-2 checkpoint. -/
theorem claim_C2_checkpoint_validation_witness :
    envC.loadPDF "a.pdf" = some "pdftext" ∧
    storeW (key1 "a.pdf") = some (some (JVal.jstr "P1")) ∧
    storeW (key2 "a.pdf") = some (some (JVal.jstr "S2")) ∧
    (∃ st' evs, processDoc envC storeW "a.pdf" = .ok (st', evs) ∧
      Ev.invoke2 "a.pdf" ∈ evs) :=
  ⟨rfl, by decide, by decide,
   (claim_C2_checkpoint_validation envC storeW "a.pdf" "pdftext" "P1" rfl
     (by decide)).1 "S2" (by decide)⟩

open Pipeline in
/-- C3 counterexample: an enumerated document whose stage-1 output is not
parseable JSON produces zero rows — it is logged as processed but its row is
silently skipped, so "exactly one row per enumerated document" fails. -/
theorem claim_C3_one_row_counterexample :
    HtmlText.endsWithPy "a.pdf" ".pdf" = true ∧
    (runEvs envB store0 ["a.pdf"]).map rowsOf = some [] ∧
    (runEvs envB store0 ["a.pdf"]).map logCount = some 1 :=
  ⟨by decide, by decide, by decide⟩

open Pipeline in
/-- C3 (amended): each enumerated document contributes at most one row, rows
appear in enumeration order (the sorted listing), the first column of each
row is its document's name, and a document's row is missing exactly when its
row assembly failed. -/
theorem claim_C3_one_row_per_document (env : Env) (st : Store)
    (listing : List String) (st' : Store) (evs : List Ev)
    (h : runPipeline env st listing = .ok (st', evs)) :
    ∃ rowOf : List (Option (List String)),
      rowOf.length = (sortStrings listing).length ∧
      rowsOf evs = rowOf.reduceOption ∧
      ∀ i r, rowOf.get? i = some (some r) →
        ∃ d, (sortStrings listing).get? i = some d ∧ r.head? = some d :=
  runDocs_rows env (sortStrings listing) st st' evs h

open Pipeline in
/-- Witness for the amended C3 at the concrete one-document run. -/
theorem claim_C3_one_row_per_document_witness :
    ∃ rowOf : List (Option (List String)),
      rowOf.length = (sortStrings ["a.pdf"]).length ∧
      rowsOf evs1c = rowOf.reduceOption ∧
      ∀ i r, rowOf.get? i = some (some r) →
        ∃ d, (sortStrings ["a.pdf"]).get? i = some d ∧ r.head? = some d :=
  claim_C3_one_row_per_document envC store0 ["a.pdf"] st1c evs1c rfl

open Pipeline in
/-- C4 counterexample: a stage-1 agent invocation failure is uncaught and
aborts the whole batch run instead of advancing to the next document. -/
theorem claim_C4_no_abort_counterexample :
    envErr.agent1 "a.pdf" = Except.error "agent down" ∧
    runFailed (runDocs envErr store0 ["a.pdf"]) = true :=
  ⟨rfl, by decide⟩

open Pipeline in
/-- C4 (amended): document-load failures and stage-2 agent failures never
abort the batch — if every stage-1 invocation succeeds and every stored
checkpoint is a JSON string (or absent), the run completes for any loader and
any stage-2 agent behaviour.  Stage-1 invocation failures and malformed
checkpoint files, by contrast, abort the run. -/
theorem claim_C4_no_abort (env : Env) (st : Store) (docs : List String)
    (hA : ∀ d, ∃ o, env.agent1 d = .ok o) (hS : StoreOK st) :
    ∃ st' evs, runDocs env st docs = .ok (st', evs) := by
  rcases runDocs_total env docs st hS hA with ⟨st', evs, h, _⟩
  exact ⟨st', evs, h⟩

open Pipeline in
/-- Witness for the amended C4: a run where one document's load fails and
every stage-2 invocation fails still completes. -/
theorem claim_C4_no_abort_witness :
    (∀ d, ∃ o, envW.agent1 d = .ok o) ∧ StoreOK store0 ∧
    (∃ st' evs, runDocs envW store0 ["a.pdf", "b.pdf"] = .ok (st', evs)) :=
  ⟨fun _ => ⟨"P1", rfl⟩, fun _ => Or.inl rfl,
   claim_C4_no_abort envW store0 ["a.pdf", "b.pdf"]
     (fun _ => ⟨"P1", rfl⟩) (fun _ => Or.inl rfl)⟩

open Pipeline in
/-- C5 counterexample: after a failed stage-2 invocation nothing is persisted
to the stage-2 checkpoint (the write sits inside the `try` before the
exception handler), and a subsequent run re-invokes the stage-2 agent. -/
theorem claim_C5_error_marker_counterexample :
    envE2.agent2 (sanitizeQuotes "P1") = Except.error "netfail" ∧
    runStoreAt envE2 store0 ["a.pdf"] (key2 "a.pdf") = some none ∧
    (runTwiceEvs envE2 store0 ["a.pdf"]).map invoke2Count = some 1 :=
  ⟨rfl, by decide, by decide⟩

open Pipeline in
/-- C5 (amended): when the stage-2 invocation fails, the error-marker payload
naming the failure reason is built in memory and used for the document's row,
but the stage-2 checkpoint is left unwritten, so the failure is retried on
the next run. -/
theorem claim_C5_error_marker (env : Env) (st : Store) (d txt p e : String)
    (hload : env.loadPDF d = some txt)
    (hk1 : st (key1 d) = some (some (JVal.jstr p)))
    (hk2 : st (key2 d) = none)
    (ha : env.agent2 (sanitizeQuotes p) = .error e) :
    ∃ st' evs, processDoc env st d = .ok (st', evs) ∧ st' (key2 d) = none ∧
      Ev.invoke2 d ∈ evs ∧
      rowsOf evs = (rowFor env d p (JVal.jstr (errorPayload e))).toList := by
  have hs1 := stage1_hit env st d p hk1
  have hs2 := stage2_absent env st d (sanitizeQuotes p) hk2
  have hv : stage2Invoke env st d (sanitizeQuotes p) =
      (JVal.jstr (errorPayload e), st, [Ev.invoke2 d]) := by
    unfold stage2Invoke
    rw [ha]
  refine ⟨st, (([] ++ [Ev.invoke2 d]) ++ [Ev.logWrite d]) ++
    rowEvents env d p (JVal.jstr (errorPayload e)), ?_, hk2, by simp, ?_⟩
  · unfold processDoc
    rw [hload]
    simp only [hs1, hs2, hv]
  · rw [rowsOf_append,
      show rowsOf (([] ++ [Ev.invoke2 d]) ++ [Ev.logWrite d]) = [] from rfl,
      rowsOf_rowEvents]
    simp

open Pipeline in
/-- Witness for the amended C5 at the concrete failing-stage-2 instance. -/
theorem claim_C5_error_marker_witness :
    envE2.loadPDF "a.pdf" = some "pdftext" ∧
    storeOne (key1 "a.pdf") = some (some (JVal.jstr "P1")) ∧
    storeOne (key2 "a.pdf") = none ∧
    envE2.agent2 (sanitizeQuotes "P1") = Except.error "netfail" ∧
    (∃ st' evs, processDoc envE2 storeOne "a.pdf" = .ok (st', evs) ∧
      st' (key2 "a.pdf") = none ∧ Ev.invoke2 "a.pdf" ∈ evs ∧
      rowsOf evs = (rowFor envE2 "a.pdf" "P1"
        (JVal.jstr (errorPayload "netfail"))).toList) :=
  ⟨rfl, by decide, by decide, rfl,
   claim_C5_error_marker envE2 storeOne "a.pdf" "pdftext" "P1" "netfail"
     rfl (by decide) (by decide) rfl⟩

open Pipeline in
/-- C6 counterexample: a document whose row assembly fails is appended to the
processed log but gets no row, so "a document whose identifier appears in the
ProcessedLog has had its row written" fails (and the log append in fact
precedes the row write). -/
theorem claim_C6_order_counterexample :
    (runEvs envB store0 ["a.pdf"]).map (fun e => (logCount e, rowCount e)) =
      some (1, 0) := by decide

open Pipeline in
/-- C6 (amended): per document, the processed-log append precedes the row
append — every event of the document's processing other than the optional
final row write (including the log append) comes first, and the row write,
when present, is the last event. -/
theorem claim_C6_log_before_row (env : Env) (st : Store) (d : String)
    (st' : Store) (evs : List Ev) (h : processDoc env st d = .ok (st', evs)) :
    ∃ pre tail, evs = pre ++ tail ∧ (∀ r, Ev.rowWrite r ∉ pre) ∧
      (∀ l, Ev.logWrite l ∉ tail) ∧
      (tail = [] ∨ ∃ r, tail = [Ev.rowWrite r] ∧ r.head? = some d) :=
  processDoc_shape env st d st' evs h

open Pipeline in
/-- Witness for the amended C6 at the concrete one-document run. -/
theorem claim_C6_log_before_row_witness :
    ∃ pre tail, evs1c = pre ++ tail ∧ (∀ r, Ev.rowWrite r ∉ pre) ∧
      (∀ l, Ev.logWrite l ∉ tail) ∧
      (tail = [] ∨ ∃ r, tail = [Ev.rowWrite r] ∧ r.head? = some "a.pdf") :=
  claim_C6_log_before_row envC store0 "a.pdf" st1c evs1c rfl
